import Mathlib

/-!
Shallow embedding of `daily_tracker.py`, a JSON-file-backed task-tracking CLI.

Python values that can occur in the persisted `tasks.json` file are modelled
by `JValue` (JSON numbers are modelled as integers only; the repository never
writes floats).  Python exceptions are modelled by `PyError`: the script
defines a single custom exception class `TaskError`, and built-in exceptions
(`KeyError`, `ValueError`, `TypeError`, `argparse.ArgumentTypeError`) that its
code can raise are modelled as separate constructors, because `main` catches
only `TaskError`.  Fallible code returns `Except PyError`.

The backing file is modelled by `FileState`; each operation takes the file
state and returns the result together with the written file state, exactly
mirroring the load/mutate/save structure of the source.
-/

namespace DailyTracker

/-- Values of the dynamic (JSON-shaped) data the script manipulates. -/
inductive JValue where
  | jnull
  | jbool (b : Bool)
  | jint (n : Int)
  | jstr (s : String)
  | jarr (items : List JValue)
  | jobj (pairs : List (String × JValue))
deriving Repr

/-- Exceptions the script can raise.  `taskError` is the script's own
`TaskError(RuntimeError)` class; the rest are Python built-ins. -/
inductive PyError where
  | taskError (msg : String)
  | keyError (key : String)
  | valueError
  | typeError
  | argumentTypeError (msg : String)
deriving Repr, DecidableEq

/-- Lookup of a key in a JSON object, modelling Python dict access
(`json.loads` keeps the last duplicate key, so objects have distinct keys
and first-match lookup is adequate). -/
def lookupKey (pairs : List (String × JValue)) (key : String) : Option JValue :=
  match pairs with
  | [] => none
  | (k, v) :: rest => if k = key then some v else lookupKey rest key

/-- Model of Python subscripting `raw[key]`: `KeyError` on a missing key,
`TypeError` when `raw` is not a mapping. -/
def JValue.subscript (raw : JValue) (key : String) : Except PyError JValue :=
  match raw with
  | .jobj pairs =>
      match lookupKey pairs key with
      | some v => .ok v
      | none => .error (.keyError key)
  | _ => .error .typeError

/-- Model of Python `raw.get(key, dflt)` for mapping values.  In
`Task.from_dict` this is only reached after a successful subscript, so
`raw` is a mapping there; for other shapes we return the default. -/
def JValue.getD (raw : JValue) (key : String) (dflt : JValue) : JValue :=
  match raw with
  | .jobj pairs => (lookupKey pairs key).getD dflt
  | _ => dflt

/-- ASCII decimal digit test (models `\d` of the relevant CPython regexes
restricted to ASCII; non-ASCII digits are not modelled). -/
def isPyDigit (c : Char) : Bool := 48 ≤ c.toNat && c.toNat ≤ 57

/-- Numeric value of an ASCII digit character. -/
def digitVal (c : Char) : Nat := c.toNat - 48

/-- Whitespace stripped by Python `int(str)`. -/
def isPySpace (c : Char) : Bool :=
  c = ' ' || c = '\t' || c = '\n' || c = '\x0d' || c = '\x0b' || c = '\x0c'

/-- Digit-run parser for Python `int(str)`: digits with single underscores
allowed between digit groups. -/
def parseDigitsGo (acc : Nat) : List Char → Option Nat
  | [] => some acc
  | '_' :: c :: rest =>
      if isPyDigit c then parseDigitsGo (acc * 10 + digitVal c) rest else none
  | c :: rest =>
      if isPyDigit c then parseDigitsGo (acc * 10 + digitVal c) rest else none

/-- Unsigned part of Python `int(str)`: a leading digit then `parseDigitsGo`. -/
def parseUnsigned : List Char → Option Nat
  | [] => none
  | c :: rest => if isPyDigit c then parseDigitsGo (digitVal c) rest else none

/-- Model of Python `int(s)` on a string: strip whitespace, optional sign,
then decimal digits; `ValueError` otherwise. -/
def pyStrToInt (s : String) : Except PyError Int :=
  let core := ((s.data.dropWhile isPySpace).reverse.dropWhile isPySpace).reverse
  match core with
  | '-' :: rest =>
      match parseUnsigned rest with
      | some n => .ok (-(n : Int))
      | none => .error .valueError
  | '+' :: rest =>
      match parseUnsigned rest with
      | some n => .ok (n : Int)
      | none => .error .valueError
  | other =>
      match parseUnsigned other with
      | some n => .ok (n : Int)
      | none => .error .valueError

/-- Model of Python `int(v)` on a dynamic value: exact for ints, 0/1 for
bools, string parsing for strings, `TypeError` for the rest. -/
def pyInt : JValue → Except PyError Int
  | .jint n => .ok n
  | .jbool b => .ok (if b then 1 else 0)
  | .jstr s => pyStrToInt s
  | _ => .error .typeError

/-- Comma-separated join used by the `repr` model. -/
def joinComma : List String → String
  | [] => ""
  | [s] => s
  | s :: rest => s ++ ", " ++ joinComma rest

mutual
/-- Model of Python `repr` on JSON-shaped values (string quoting is modelled
without escape sequences; no claim depends on quoted contents). -/
def pyRepr : JValue → String
  | .jnull => "None"
  | .jbool b => if b then "True" else "False"
  | .jint n => toString n
  | .jstr s => "\x27" ++ s ++ "\x27"
  | .jarr items => "[" ++ joinComma (pyReprList items) ++ "]"
  | .jobj pairs => "\x7b" ++ joinComma (pyReprPairs pairs) ++ "\x7d"

def pyReprList : List JValue → List String
  | [] => []
  | v :: rest => pyRepr v :: pyReprList rest

def pyReprPairs : List (String × JValue) → List String
  | [] => []
  | (k, v) :: rest => ("\x27" ++ k ++ "\x27: " ++ pyRepr v) :: pyReprPairs rest
end

/-- Model of Python `str(v)`: identity on strings, `repr`-like otherwise. -/
def pyStrOf (v : JValue) : String :=
  match v with
  | .jstr s => s
  | _ => pyRepr v

/-- Model of Python truthiness, as used by `bool(v)`. -/
def pyBool : JValue → Bool
  | .jnull => false
  | .jbool b => b
  | .jint n => n != 0
  | .jstr s => !s.data.isEmpty
  | .jarr items => !items.isEmpty
  | .jobj pairs => !pairs.isEmpty

/-- The `Task` dataclass of `daily_tracker.py`. -/
structure Task where
  task_id : Int
  description : String
  scheduled_for : String
  completed : Bool
deriving Repr, DecidableEq

/-- The dataclass constructor default: `completed` is `False` at creation. -/
def Task.make (task_id : Int) (description scheduled_for : String) : Task :=
  { task_id := task_id, description := description,
    scheduled_for := scheduled_for, completed := false }

/-- `Task.matches_date`: true if `date` is `None` or equals `scheduled_for`. -/
def Task.matches_date (t : Task) (date : Option String) : Bool :=
  match date with
  | none => true
  | some d => t.scheduled_for == d

/-- `Task.matches_state`: true if `completed` is `None` or equals the flag. -/
def Task.matches_state (t : Task) (completed : Option Bool) : Bool :=
  match completed with
  | none => true
  | some c => t.completed == c

/-- `Task.from_dict`: builds a task from a raw record, evaluating
`int(raw["task_id"])`, `str(raw["description"])`,
`str(raw["scheduled_for"])`, `bool(raw.get("completed", False))` in the
source's argument order, propagating the first exception. -/
def Task.from_dict (raw : JValue) : Except PyError Task :=
  match raw.subscript "task_id" with
  | .error e => .error e
  | .ok rawId =>
      match pyInt rawId with
      | .error e => .error e
      | .ok tid =>
          match raw.subscript "description" with
          | .error e => .error e
          | .ok rawDescription =>
              match raw.subscript "scheduled_for" with
              | .error e => .error e
              | .ok rawScheduled =>
                  .ok { task_id := tid, description := pyStrOf rawDescription,
                        scheduled_for := pyStrOf rawScheduled,
                        completed := pyBool (raw.getD "completed" (.jbool false)) }

/-- `asdict(task)`, the serialised record written by `save_tasks`. -/
def Task.asdict (t : Task) : JValue :=
  .jobj [("task_id", .jint t.task_id), ("description", .jstr t.description),
         ("scheduled_for", .jstr t.scheduled_for), ("completed", .jbool t.completed)]

/-- State of the backing `tasks.json` file: absent, present but not valid
JSON, or present with parsed JSON contents. -/
inductive FileState where
  | missing
  | invalidJson
  | jsonData (v : JValue)
deriving Repr

/-- The list comprehension `[Task.from_dict(item) for item in data]`:
deserialise items left to right, propagating the first exception. -/
def fromDictAll : List JValue → Except PyError (List Task)
  | [] => .ok []
  | item :: rest =>
      match Task.from_dict item with
      | .error e => .error e
      | .ok t =>
          match fromDictAll rest with
          | .error e => .error e
          | .ok ts => .ok (t :: ts)

/-- `load_tasks`: empty list when the file does not exist; `TaskError` when
the contents are not valid JSON; otherwise iterate the parsed value.
Iterating a JSON array visits its items; iterating an object visits its
keys (strings) and a string its characters, in which case `from_dict`
raises `TypeError` on the first element; other values are not iterable
(`TypeError`). -/
def load_tasks (fs : FileState) : Except PyError (List Task) :=
  match fs with
  | .missing => .ok []
  | .invalidJson =>
      .error (.taskError "Không thể đọc dữ liệu nhiệm vụ. Hãy kiểm tra file tasks.json")
  | .jsonData (.jarr items) => fromDictAll items
  | .jsonData (.jobj pairs) => fromDictAll (pairs.map fun kv => JValue.jstr kv.1)
  | .jsonData (.jstr s) => fromDictAll (s.data.map fun c => JValue.jstr (String.mk [c]))
  | .jsonData _ => .error .typeError

/-- `save_tasks`: overwrite the file with the serialised collection. -/
def save_tasks (tasks : List Task) : FileState :=
  .jsonData (.jarr (tasks.map Task.asdict))

/-- Python `max(l, default=d)`: the default is used only when the list is
empty; otherwise a left fold of binary `max` over the elements. -/
def pyMaxD (l : List Int) (dflt : Int) : Int :=
  match l with
  | [] => dflt
  | x :: xs => xs.foldl max x

/-- `next_task_id`: `max((task.task_id for task in tasks), default=0) + 1`. -/
def next_task_id (tasks : List Task) : Int :=
  pyMaxD (tasks.map Task.task_id) 0 + 1

/-- `add_task`: load, compute the next id, append the new task, save. -/
def add_task (description scheduled_for : String) (fs : FileState) :
    Except PyError (Task × FileState) :=
  match load_tasks fs with
  | .error e => .error e
  | .ok tasks =>
      let new_task := Task.make (next_task_id tasks) description scheduled_for
      .ok (new_task, save_tasks (tasks ++ [new_task]))

/-- Lexicographic comparison of character lists by code point, the model of
Python string `<` used in tuple comparison of sort keys. -/
def strLtCh : List Char → List Char → Bool
  | [], [] => false
  | [], _ :: _ => true
  | _ :: _, [] => false
  | a :: as, b :: bs =>
      if a.toNat < b.toNat then true
      else if a.toNat = b.toNat then strLtCh as bs
      else false

/-- Non-strict comparison of tasks by the sort key
`(task.scheduled_for, task.task_id)`, as Python tuple comparison orders it. -/
def taskLE (t u : Task) : Bool :=
  strLtCh t.scheduled_for.data u.scheduled_for.data ||
    (t.scheduled_for.data == u.scheduled_for.data && decide (t.task_id ≤ u.task_id))

/-- Insert a task into a sorted list, before the first element it compares
`taskLE` to.  Processing the original list right to left (`sortTasks`) makes
this a stable sort, so it computes the same list as Python's stable
`sorted` with the same key. -/
def insertTask (x : Task) : List Task → List Task
  | [] => [x]
  | y :: ys => if taskLE x y then x :: y :: ys else y :: insertTask x ys

/-- Stable sort by `(scheduled_for, task_id)`, the model of
`sorted(tasks, key=lambda task: (task.scheduled_for, task.task_id))`. -/
def sortTasks : List Task → List Task
  | [] => []
  | x :: xs => insertTask x (sortTasks xs)

/-- `list_tasks`: load; if not `show_all`, keep tasks matching the date; if
`completed` is not `None`, keep tasks matching the state; sort by
`(scheduled_for, task_id)`. -/
def list_tasks (date : Option String) (show_all : Bool) (completed : Option Bool)
    (fs : FileState) : Except PyError (List Task) :=
  match load_tasks fs with
  | .error e => .error e
  | .ok tasks =>
      let tasks := if show_all then tasks else tasks.filter fun t => t.matches_date date
      let tasks :=
        match completed with
        | none => tasks
        | some _ => tasks.filter fun t => t.matches_state completed
      .ok (sortTasks tasks)

/-- Message of the `TaskError` raised when no task has the requested id. -/
def notFoundMsg (task_id : Int) : String :=
  "Không tìm thấy nhiệm vụ với mã " ++ toString task_id ++ "."

/-- The loop of `update_task_state`: set `completed` on the first task whose
id matches, returning the updated task and the updated collection; `none`
when no task matches. -/
def updateFirst (task_id : Int) (completed : Bool) : List Task → Option (Task × List Task)
  | [] => none
  | t :: ts =>
      if t.task_id == task_id then
        some ({ t with completed := completed }, { t with completed := completed } :: ts)
      else
        match updateFirst task_id completed ts with
        | some (u, ts2) => some (u, t :: ts2)
        | none => none

/-- `update_task_state`: load, set `completed` on the first matching task,
save, return the updated task; `TaskError` when no task matches. -/
def update_task_state (task_id : Int) (completed : Bool) (fs : FileState) :
    Except PyError (Task × FileState) :=
  match load_tasks fs with
  | .error e => .error e
  | .ok tasks =>
      match updateFirst task_id completed tasks with
      | some (u, tasks2) => .ok (u, save_tasks tasks2)
      | none => .error (.taskError (notFoundMsg task_id))

/-- The loop of `remove_task`: pop the first task whose id matches,
returning it and the reduced collection; `none` when no task matches. -/
def removeFirst (task_id : Int) : List Task → Option (Task × List Task)
  | [] => none
  | t :: ts =>
      if t.task_id == task_id then some (t, ts)
      else
        match removeFirst task_id ts with
        | some (r, ts2) => some (r, t :: ts2)
        | none => none

/-- `remove_task`: load, pop the first matching task, save the reduced
collection, return the removed task; `TaskError` when no task matches. -/
def remove_task (task_id : Int) (fs : FileState) : Except PyError (Task × FileState) :=
  match load_tasks fs with
  | .error e => .error e
  | .ok tasks =>
      match removeFirst task_id tasks with
      | some (r, tasks2) => .ok (r, save_tasks tasks2)
      | none => .error (.taskError (notFoundMsg task_id))

/-- ASCII lowercase of one character, modelling `str.lower` on the
characters relevant here (full Unicode case mapping is not modelled). -/
def pyLowerChar (c : Char) : Char :=
  if 65 ≤ c.toNat ∧ c.toNat ≤ 90 then Char.ofNat (c.toNat + 32) else c

/-- Model of `value.lower()`. -/
def pyLower (s : String) : String := String.mk (s.data.map pyLowerChar)

/-- Gregorian leap-year rule used by `datetime.date`. -/
def isLeapYear (y : Nat) : Bool := y % 4 == 0 && (y % 100 != 0 || y % 400 == 0)

/-- Number of days in a month, as `datetime` validates day-of-month. -/
def daysInMonth (y m : Nat) : Nat :=
  if m == 2 then (if isLeapYear y then 29 else 28)
  else if m == 4 || m == 6 || m == 9 || m == 11 then 30
  else 31

/-- Split a character list at each dash, the shape analysis underlying the
`%Y-%m-%d` format (its three fields are digit-only, so the regex match
coincides with splitting at dashes). -/
def splitDash : List Char → List Char → List (List Char)
  | [], acc => [acc.reverse]
  | c :: rest, acc =>
      if c = '-' then acc.reverse :: splitDash rest [] else splitDash rest (c :: acc)

/-- The `%Y` field of CPython `strptime`: exactly four digits. -/
def yearMatch (cs : List Char) : Option Nat :=
  match cs with
  | [a, b, c, d] =>
      if isPyDigit a ∧ isPyDigit b ∧ isPyDigit c ∧ isPyDigit d then
        some (1000 * digitVal a + 100 * digitVal b + 10 * digitVal c + digitVal d)
      else none
  | _ => none

/-- The `%m` field of CPython `strptime`, regex `1[0-2]|0[1-9]|[1-9]`:
one- or two-digit month (a one-digit remainder after a two-digit failure
cannot be followed by the format's literal dash, so full-field match is
equivalent). -/
def monthMatch (cs : List Char) : Option Nat :=
  match cs with
  | [a] => if 49 ≤ a.toNat ∧ a.toNat ≤ 57 then some (digitVal a) else none
  | [a, b] =>
      if a = '1' ∧ 48 ≤ b.toNat ∧ b.toNat ≤ 50 then some (10 + digitVal b)
      else if a = '0' ∧ 49 ≤ b.toNat ∧ b.toNat ≤ 57 then some (digitVal b)
      else none
  | _ => none

/-- The `%d` field of CPython `strptime`, regex `3[01]|[12]\d|0[1-9]|[1-9]`. -/
def dayMatch (cs : List Char) : Option Nat :=
  match cs with
  | [a] => if 49 ≤ a.toNat ∧ a.toNat ≤ 57 then some (digitVal a) else none
  | [a, b] =>
      if a = '3' ∧ (b = '0' ∨ b = '1') then some (30 + digitVal b)
      else if (a = '1' ∨ a = '2') ∧ isPyDigit b then some (10 * digitVal a + digitVal b)
      else if a = '0' ∧ 49 ≤ b.toNat ∧ b.toNat ≤ 57 then some (digitVal b)
      else none
  | _ => none

/-- Model of `datetime.strptime(s, "%Y-%m-%d")`: the full string must match
the format's regex, then `datetime` validates the calendar date (year at
least `MINYEAR = 1`, day within the month).  Returns the parsed fields on
success, `none` on `ValueError`. -/
def strptimeYmd (s : String) : Option (Nat × Nat × Nat) :=
  match splitDash s.data [] with
  | [ys, ms, ds] =>
      match yearMatch ys, monthMatch ms, dayMatch ds with
      | some y, some m, some d =>
          if 1 ≤ y ∧ d ≤ daysInMonth y m then some (y, m, d) else none
      | _, _, _ => none
  | _ => none

/-- `parse_date`: `value.lower() == "today"` resolves to the current date
string (passed in as `today`, the value of
`datetime.date.today().strftime("%Y-%m-%d")`); otherwise `strptime` must
accept the value, which is then returned verbatim; otherwise
`argparse.ArgumentTypeError`. -/
def parse_date (today value : String) : Except PyError String :=
  if pyLower value = "today" then .ok today
  else
    match strptimeYmd value with
    | some _ => .ok value
    | none =>
        .error (.argumentTypeError
          ("Ngày không hợp lệ: \x27" ++ value ++ "\x27. Định dạng đúng là YYYY-MM-DD."))

/-- A parsed command, the relevant fields of the `argparse` namespace for
each of the four subcommands. -/
inductive Command where
  | add (description : String) (date : String)
  | list (date : String) (all : Bool) (completed : Bool) (pending : Bool)
  | done (task_id : Int) (undone : Bool)
  | remove (task_id : Int)
deriving Repr, DecidableEq

/-- Result of argument parsing: either a parsed command reaches dispatch, or
`argparse` reports a syntax error and exits the process with code 2 before
any file operation runs. -/
inductive ArgvResult where
  | parsed (cmd : Command)
  | exitedWithCode (code : Int)
deriving Repr, DecidableEq

/-- True when the token starts with a dash, in which case `argparse` treats
it as an option rather than a positional argument. -/
def startsDash (s : String) : Bool :=
  match s.data with
  | '-' :: _ => true
  | _ => false

/-- True when the token is a negative integer literal, which `argparse`
accepts as a positional value because no declared option looks like a
negative number. -/
def isNegIntToken (s : String) : Bool :=
  match s.data with
  | '-' :: c :: rest => isPyDigit c && (rest.all isPyDigit)
  | _ => false

/-- Argument loop of the `add` subcommand: one required positional
`description` and the option `--date` (type `parse_date`, default the
current date, already installed by the caller). -/
def parseAddArgs (today : String) (args : List String) (descOpt : Option String)
    (date : String) : ArgvResult :=
  match args with
  | [] =>
      match descOpt with
      | some d => .parsed (.add d date)
      | none => .exitedWithCode 2
  | tok :: rest =>
      if tok = "--date" then
        match rest with
        | v :: rest2 =>
            match parse_date today v with
            | .ok d => parseAddArgs today rest2 descOpt d
            | .error _ => .exitedWithCode 2
        | [] => .exitedWithCode 2
      else if startsDash tok then .exitedWithCode 2
      else
        match descOpt with
        | none => parseAddArgs today rest (some tok) date
        | some _ => .exitedWithCode 2

/-- Argument loop of the `list` subcommand: options `--date` (default the
current date), `--all`, and the mutually exclusive `--completed` /
`--pending` flags. -/
def parseListArgs (today : String) (args : List String) (date : String)
    (all completed pending : Bool) : ArgvResult :=
  match args with
  | [] => .parsed (.list date all completed pending)
  | tok :: rest =>
      if tok = "--date" then
        match rest with
        | v :: rest2 =>
            match parse_date today v with
            | .ok d => parseListArgs today rest2 d all completed pending
            | .error _ => .exitedWithCode 2
        | [] => .exitedWithCode 2
      else if tok = "--all" then parseListArgs today rest date true completed pending
      else if tok = "--completed" then
        if pending then .exitedWithCode 2
        else parseListArgs today rest date all true pending
      else if tok = "--pending" then
        if completed then .exitedWithCode 2
        else parseListArgs today rest date all completed true
      else .exitedWithCode 2

/-- Argument loop of the `done` subcommand: one required positional
`task_id` of type `int` and the flag `--undone`. -/
def parseDoneArgs (args : List String) (idOpt : Option Int) (undone : Bool) : ArgvResult :=
  match args with
  | [] =>
      match idOpt with
      | some i => .parsed (.done i undone)
      | none => .exitedWithCode 2
  | tok :: rest =>
      if tok = "--undone" then parseDoneArgs rest idOpt true
      else if startsDash tok ∧ ¬ isNegIntToken tok then .exitedWithCode 2
      else
        match idOpt with
        | some _ => .exitedWithCode 2
        | none =>
            match pyStrToInt tok with
            | .ok i => parseDoneArgs rest (some i) undone
            | .error _ => .exitedWithCode 2

/-- Argument loop of the `remove` subcommand: one required positional
`task_id` of type `int`. -/
def parseRemoveArgs (args : List String) (idOpt : Option Int) : ArgvResult :=
  match args with
  | [] =>
      match idOpt with
      | some i => .parsed (.remove i)
      | none => .exitedWithCode 2
  | tok :: rest =>
      if startsDash tok ∧ ¬ isNegIntToken tok then .exitedWithCode 2
      else
        match idOpt with
        | some _ => .exitedWithCode 2
        | none =>
            match pyStrToInt tok with
            | .ok i => parseRemoveArgs rest (some i)
            | .error _ => .exitedWithCode 2

/-- `build_parser` plus `parser.parse_args(argv)`: dispatch on the
subcommand name; the `--date` defaults of `add` and `list` are the current
date string, installed here.  A missing or unknown subcommand is a parser
error (exit code 2). -/
def parseArgv (today : String) (argv : List String) : ArgvResult :=
  match argv with
  | "add" :: rest => parseAddArgs today rest none today
  | "list" :: rest => parseListArgs today rest today false false false
  | "done" :: rest => parseDoneArgs rest none false
  | "remove" :: rest => parseRemoveArgs rest none
  | _ => .exitedWithCode 2

/-- Zero-pad a digit string on the left to the given width. -/
def zeroPad (w : Nat) (s : String) : String :=
  if s.length < w then String.mk (List.replicate (w - s.length) '0') ++ s else s

/-- Model of the f-string field `{task.task_id:03d}`. -/
def pad3 (n : Int) : String :=
  if n < 0 then "-" ++ zeroPad 2 (toString (-n)) else zeroPad 3 (toString n)

/-- Newline join of rendered lines. -/
def joinLines : List String → String
  | [] => ""
  | [l] => l
  | l :: rest => l ++ "\n" ++ joinLines rest

/-- `render_tasks`: one formatted line per task, or the no-match message
when the list is empty. -/
def render_tasks (tasks : List Task) : String :=
  let lines := tasks.map fun t =>
    "[" ++ pad3 t.task_id ++ "] " ++ (if t.completed then "✅" else "⬜") ++ " "
      ++ t.scheduled_for ++ " - " ++ t.description
  if lines.isEmpty then "Không có nhiệm vụ nào khớp với yêu cầu."
  else joinLines lines

/-- Outcome of one invocation: a clean exit carrying the exit code, the
lines printed to stdout and stderr, and the resulting file state — or an
exception that escaped `main` (only `TaskError` is caught there). -/
inductive MainOutcome where
  | exited (code : Int) (stdout : List String) (stderr : List String) (fs : FileState)
  | uncaught (e : PyError) (fs : FileState)
deriving Repr

/-- The dispatch block of `main` on an already-parsed command: run the
operation, print its result; `except TaskError` prints the message to
stderr and returns 1; any other exception escapes uncaught, leaving the
file as the operation left it (the operations above return the input file
state on every error path, since they fail before saving). -/
def run_command (cmd : Command) (fs : FileState) : MainOutcome :=
  match cmd with
  | .add desc date =>
      match add_task desc date fs with
      | .ok (t, fs2) =>
          .exited 0 ["Đã thêm nhiệm vụ " ++ toString t.task_id ++ ": " ++ t.description] [] fs2
      | .error (.taskError m) => .exited 1 [] [m] fs
      | .error e => .uncaught e fs
  | .list date all completed pending =>
      let completed_state : Option Bool :=
        if completed then some true else if pending then some false else none
      match list_tasks (some date) all completed_state fs with
      | .ok ts => .exited 0 [render_tasks ts] [] fs
      | .error (.taskError m) => .exited 1 [] [m] fs
      | .error e => .uncaught e fs
  | .done tid undone =>
      match update_task_state tid (!undone) fs with
      | .ok (t, fs2) =>
          .exited 0 ["Nhiệm vụ " ++ toString t.task_id ++ " hiện "
            ++ (if t.completed then "hoàn thành" else "chưa hoàn thành") ++ "."] [] fs2
      | .error (.taskError m) => .exited 1 [] [m] fs
      | .error e => .uncaught e fs
  | .remove tid =>
      match remove_task tid fs with
      | .ok (t, fs2) =>
          .exited 0 ["Đã xoá nhiệm vụ " ++ toString t.task_id ++ ": " ++ t.description] [] fs2
      | .error (.taskError m) => .exited 1 [] [m] fs
      | .error e => .uncaught e fs

/-- The whole of `main(argv)`: parse the arguments (a parser error exits
with code 2 before any file operation), then dispatch. -/
def runMain (today : String) (argv : List String) (fs : FileState) : MainOutcome :=
  match parseArgv today argv with
  | .exitedWithCode c => .exited c [] [] fs
  | .parsed cmd => run_command cmd fs

/-- A sequence of `add` invocations: run `add_task` for each
(description, date) pair in turn, threading the file state and collecting
the ids of the returned tasks. -/
def addMany (specs : List (String × String)) (fs : FileState) :
    Except PyError (List Int × FileState) :=
  match specs with
  | [] => .ok ([], fs)
  | (d, s) :: rest =>
      match add_task d s fs with
      | .error e => .error e
      | .ok (t, fs2) =>
          match addMany rest fs2 with
          | .error e => .error e
          | .ok (ids, fsN) => .ok (t.task_id :: ids, fsN)

/-- The arithmetic sequence `start, start+1, ..., start+n-1`. -/
def idSeq (start : Int) : Nat → List Int
  | 0 => []
  | n + 1 => start :: idSeq (start + 1) n

/-- Modelled from the spec: an explicit fixed-width, zero-padded
`YYYY-MM-DD` string — four digits, a dash, two digits, a dash, two
digits.  This is the acceptance set the spec claims for explicit date
arguments; it is compared with the implementation's `strptimeYmd`. -/
def specZeroPaddedYmd (s : String) : Bool :=
  match s.data with
  | [y1, y2, y3, y4, h1, m1, m2, h2, d1, d2] =>
      isPyDigit y1 && isPyDigit y2 && isPyDigit y3 && isPyDigit y4 &&
        h1 == '-' && h2 == '-' &&
        isPyDigit m1 && isPyDigit m2 && isPyDigit d1 && isPyDigit d2
  | _ => false

/-! Helper lemmas shared by the claim theorems. -/

/-- Deserialising a record produced by `asdict` recovers the task. -/
theorem from_dict_asdict (t : Task) : Task.from_dict t.asdict = .ok t := rfl

/-- Deserialising a saved collection recovers every task. -/
theorem fromDictAll_asdict (tasks : List Task) :
    fromDictAll (tasks.map Task.asdict) = .ok tasks := by
  induction tasks with
  | nil => rfl
  | cons t ts ih => simp [fromDictAll, from_dict_asdict, ih]

/-- Saving and loading is the identity on task collections. -/
theorem load_save (tasks : List Task) : load_tasks (save_tasks tasks) = .ok tasks := by
  simpa [load_tasks, save_tasks] using fromDictAll_asdict tasks

/-- Characters with equal code points are equal. -/
theorem char_toNat_inj {a b : Char} (h : a.toNat = b.toNat) : a = b :=
  Char.ext (UInt32.ext h)

/-- Trichotomy of the code-point comparison on character lists. -/
theorem strLtCh_trichotomy : ∀ a b : List Char,
    strLtCh a b = true ∨ a = b ∨ strLtCh b a = true := by
  intro a
  induction a with
  | nil =>
      intro b
      cases b with
      | nil => exact Or.inr (Or.inl rfl)
      | cons y ys => exact Or.inl rfl
  | cons x xs ih =>
      intro b
      cases b with
      | nil => exact Or.inr (Or.inr rfl)
      | cons y ys =>
          rcases Nat.lt_trichotomy x.toNat y.toNat with h | h | h
          · left; simp [strLtCh, h]
          · have hxy : x = y := char_toNat_inj h
            subst hxy
            rcases ih ys with h1 | h1 | h1
            · left; simp [strLtCh, h1]
            · exact Or.inr (Or.inl (by rw [h1]))
            · right; right; simp [strLtCh, h1]
          · right; right; simp [strLtCh, h]

/-- Transitivity of the code-point comparison on character lists. -/
theorem strLtCh_trans : ∀ a b c : List Char,
    strLtCh a b = true → strLtCh b c = true → strLtCh a c = true := by
  intro a
  induction a with
  | nil =>
      intro b c hab hbc
      cases c with
      | nil =>
          cases b with
          | nil => simp [strLtCh] at hab
          | cons y ys => simp [strLtCh] at hbc
      | cons z zs => simp [strLtCh]
  | cons x xs ih =>
      intro b c hab hbc
      cases b with
      | nil => simp [strLtCh] at hab
      | cons y ys =>
          cases c with
          | nil => simp [strLtCh] at hbc
          | cons z zs =>
              simp only [strLtCh] at hab hbc ⊢
              by_cases h1 : x.toNat < y.toNat
              · by_cases h2 : y.toNat < z.toNat
                · simp [Nat.lt_trans h1 h2]
                · by_cases h3 : y.toNat = z.toNat
                  · simp [h3 ▸ h1]
                  · simp [h2, h3] at hbc
              · by_cases h1e : x.toNat = y.toNat
                · by_cases h2 : y.toNat < z.toNat
                  · simp [h1e ▸ h2]
                  · by_cases h3 : y.toNat = z.toNat
                    · have hrec := ih ys zs (by simpa [h1, h1e] using hab)
                        (by simpa [h2, h3] using hbc)
                      have hxz : x.toNat = z.toNat := h1e.trans h3
                      simp [hxz, hrec]
                    · simp [h2, h3] at hbc
                · simp [h1, h1e] at hab

/-- The task order used by `sortTasks` is total. -/
theorem taskLE_total (t u : Task) : taskLE t u = true ∨ taskLE u t = true := by
  rcases strLtCh_trichotomy t.scheduled_for.data u.scheduled_for.data with h | h | h
  · left; simp [taskLE, h]
  · rcases Int.le_total t.task_id u.task_id with h2 | h2
    · left; simp [taskLE, h, h2]
    · right; simp [taskLE, h.symm, h2]
  · right; simp [taskLE, h]

/-- The task order used by `sortTasks` is transitive. -/
theorem taskLE_trans (t u v : Task) (htu : taskLE t u = true) (huv : taskLE u v = true) :
    taskLE t v = true := by
  simp only [taskLE, Bool.or_eq_true, Bool.and_eq_true, beq_iff_eq,
    decide_eq_true_eq] at htu huv ⊢
  rcases htu with h1 | ⟨he1, hi1⟩
  · rcases huv with h2 | ⟨he2, hi2⟩
    · exact Or.inl (strLtCh_trans _ _ _ h1 h2)
    · exact Or.inl (he2 ▸ h1)
  · rcases huv with h2 | ⟨he2, hi2⟩
    · exact Or.inl (he1 ▸ h2)
    · exact Or.inr ⟨he1.trans he2, le_trans hi1 hi2⟩

/-- Inserting into a list is a permutation of consing. -/
theorem insertTask_perm (x : Task) : ∀ l : List Task, (insertTask x l).Perm (x :: l) := by
  intro l
  induction l with
  | nil => exact List.Perm.refl _
  | cons y ys ih =>
      by_cases h : taskLE x y = true
      · simp [insertTask, h]
      · simp only [insertTask, if_neg h]
        exact (ih.cons y).trans (List.Perm.swap x y ys)

/-- Inserting into a sorted list keeps it sorted. -/
theorem insertTask_pairwise (x : Task) : ∀ l : List Task,
    l.Pairwise (fun a b => taskLE a b = true) →
    (insertTask x l).Pairwise (fun a b => taskLE a b = true) := by
  intro l
  induction l with
  | nil => intro _; simp [insertTask]
  | cons y ys ih =>
      intro h
      rcases List.pairwise_cons.mp h with ⟨hy, hys⟩
      by_cases hxy : taskLE x y = true
      · simp only [insertTask, if_pos hxy]
        refine List.Pairwise.cons ?_ h
        intro z hz
        rcases List.mem_cons.mp hz with rfl | hz2
        · exact hxy
        · exact taskLE_trans _ _ _ hxy (hy z hz2)
      · simp only [insertTask, if_neg hxy]
        refine List.Pairwise.cons ?_ (ih hys)
        intro z hz
        have hmem := (insertTask_perm x ys).mem_iff.mp hz
        rcases List.mem_cons.mp hmem with rfl | hz2
        · rcases taskLE_total y z with h2 | h2
          · exact h2
          · exact absurd h2 hxy
        · exact hy z hz2

/-- The sort returns a permutation of its input. -/
theorem sortTasks_perm : ∀ l : List Task, (sortTasks l).Perm l := by
  intro l
  induction l with
  | nil => exact List.Perm.refl _
  | cons x xs ih => exact (insertTask_perm x (sortTasks xs)).trans (ih.cons x)

/-- The sort returns a list sorted by `(scheduled_for, task_id)`. -/
theorem sortTasks_pairwise : ∀ l : List Task,
    (sortTasks l).Pairwise (fun a b => taskLE a b = true) := by
  intro l
  induction l with
  | nil => simp [sortTasks]
  | cons x xs ih => exact insertTask_pairwise x (sortTasks xs) ih

/-- When no task matches the id, the update loop finds nothing. -/
theorem updateFirst_eq_none (tid : Int) (b : Bool) : ∀ l : List Task,
    (∀ t ∈ l, t.task_id ≠ tid) → updateFirst tid b l = none := by
  intro l
  induction l with
  | nil => intro _; rfl
  | cons t ts ih =>
      intro h
      have ht : (t.task_id == tid) = false :=
        beq_eq_false_iff_ne.mpr (h t (List.mem_cons_self t ts))
      have hts := ih fun u hu => h u (List.mem_cons_of_mem t hu)
      simp [updateFirst, ht, hts]

/-- When no task matches the id, the remove loop finds nothing. -/
theorem removeFirst_eq_none (tid : Int) : ∀ l : List Task,
    (∀ t ∈ l, t.task_id ≠ tid) → removeFirst tid l = none := by
  intro l
  induction l with
  | nil => intro _; rfl
  | cons t ts ih =>
      intro h
      have ht : (t.task_id == tid) = false :=
        beq_eq_false_iff_ne.mpr (h t (List.mem_cons_self t ts))
      have hts := ih fun u hu => h u (List.mem_cons_of_mem t hu)
      simp [removeFirst, ht, hts]

/-- The update loop rewrites exactly the first matching task, leaving the
prefix, the suffix, and their order intact. -/
theorem updateFirst_append (tid : Int) (b : Bool) (t : Task) (ht : t.task_id = tid) :
    ∀ l1 l2 : List Task, (∀ u ∈ l1, u.task_id ≠ tid) →
    updateFirst tid b (l1 ++ t :: l2) =
      some ({ t with completed := b }, l1 ++ { t with completed := b } :: l2) := by
  intro l1
  induction l1 with
  | nil =>
      intro l2 _
      have : (t.task_id == tid) = true := beq_iff_eq.mpr ht
      simp [updateFirst, this]
  | cons u us ih =>
      intro l2 h
      have hu : (u.task_id == tid) = false :=
        beq_eq_false_iff_ne.mpr (h u (List.mem_cons_self u us))
      have hrec := ih l2 fun v hv => h v (List.mem_cons_of_mem u hv)
      simp [updateFirst, hu, hrec]

/-- The remove loop removes exactly the first matching task. -/
theorem removeFirst_append (tid : Int) (t : Task) (ht : t.task_id = tid) :
    ∀ l1 l2 : List Task, (∀ u ∈ l1, u.task_id ≠ tid) →
    removeFirst tid (l1 ++ t :: l2) = some (t, l1 ++ l2) := by
  intro l1
  induction l1 with
  | nil =>
      intro l2 _
      have : (t.task_id == tid) = true := beq_iff_eq.mpr ht
      simp [removeFirst, this]
  | cons u us ih =>
      intro l2 h
      have hu : (u.task_id == tid) = false :=
        beq_eq_false_iff_ne.mpr (h u (List.mem_cons_self u us))
      have hrec := ih l2 fun v hv => h v (List.mem_cons_of_mem u hv)
      simp [removeFirst, hu, hrec]

/-- A successful remove splits the collection at the first matching task. -/
theorem removeFirst_some (tid : Int) : ∀ (l : List Task) (t : Task) (rest : List Task),
    removeFirst tid l = some (t, rest) →
    ∃ l1 l2, l = l1 ++ t :: l2 ∧ rest = l1 ++ l2 ∧ t.task_id = tid ∧
      ∀ u ∈ l1, u.task_id ≠ tid := by
  intro l
  induction l with
  | nil => intro t rest h; simp [removeFirst] at h
  | cons u us ih =>
      intro t rest h
      by_cases hu : (u.task_id == tid) = true
      · simp only [removeFirst, if_pos hu] at h
        obtain ⟨rfl, rfl⟩ : u = t ∧ us = rest := by
          constructor <;> [exact congrArg Prod.fst (Option.some.inj h);
            exact congrArg Prod.snd (Option.some.inj h)]
        exact ⟨[], us, rfl, rfl, beq_iff_eq.mp hu, by simp⟩
      · simp only [removeFirst, if_neg hu] at h
        cases hrec : removeFirst tid us with
        | none => rw [hrec] at h; simp at h
        | some p =>
            obtain ⟨r, ts2⟩ := p
            rw [hrec] at h
            simp only [Option.some.injEq, Prod.mk.injEq] at h
            obtain ⟨rfl, rfl⟩ := h
            obtain ⟨l1, l2, hsplit, hrest, htid, hl1⟩ := ih r ts2 hrec
            refine ⟨u :: l1, l2, by simp [hsplit], by simp [hrest], htid, ?_⟩
            intro v hv
            rcases List.mem_cons.mp hv with rfl | hv2
            · exact fun hc => absurd (beq_iff_eq.mpr hc) (by simpa using hu)
            · exact hl1 v hv2

/-- Any collection containing a matching task splits at its first match. -/
theorem exists_first_split (tid : Int) : ∀ l : List Task, (∃ t ∈ l, t.task_id = tid) →
    ∃ l1 t l2, l = l1 ++ t :: l2 ∧ t.task_id = tid ∧ ∀ u ∈ l1, u.task_id ≠ tid := by
  intro l
  induction l with
  | nil => rintro ⟨t, ht, _⟩; simp at ht
  | cons u us ih =>
      rintro ⟨t, ht, htid⟩
      by_cases hu : u.task_id = tid
      · exact ⟨[], u, us, rfl, hu, by simp⟩
      · have hmem : ∃ t ∈ us, t.task_id = tid := by
          rcases List.mem_cons.mp ht with rfl | h2
          · exact absurd htid hu
          · exact ⟨t, h2, htid⟩
        obtain ⟨l1, t2, l2, hsplit, htid2, hl1⟩ := ih hmem
        refine ⟨u :: l1, t2, l2, by simp [hsplit], htid2, ?_⟩
        intro v hv
        rcases List.mem_cons.mp hv with rfl | hv2
        · exact hu
        · exact hl1 v hv2

/-- The fold underlying `pyMaxD` produces its seed or a member. -/
theorem foldl_max_mem : ∀ (xs : List Int) (x : Int),
    xs.foldl max x = x ∨ xs.foldl max x ∈ xs := by
  intro xs
  induction xs with
  | nil => intro x; exact Or.inl rfl
  | cons y ys ih =>
      intro x
      rcases ih (max x y) with h | h
      · rcases max_choice x y with h2 | h2
        · exact Or.inl (by rw [List.foldl_cons, h, h2])
        · exact Or.inr (by rw [List.foldl_cons, h, h2]; exact List.mem_cons_self y ys)
      · exact Or.inr (List.mem_cons_of_mem y (by simpa using h))

/-- The fold underlying `pyMaxD` bounds its seed and every member. -/
theorem foldl_max_le : ∀ (xs : List Int) (x : Int),
    x ≤ xs.foldl max x ∧ ∀ u ∈ xs, u ≤ xs.foldl max x := by
  intro xs
  induction xs with
  | nil => intro x; exact ⟨le_refl x, by simp⟩
  | cons y ys ih =>
      intro x
      obtain ⟨h1, h2⟩ := ih (max x y)
      refine ⟨le_trans (le_max_left x y) (by simpa using h1), ?_⟩
      intro u hu
      rcases List.mem_cons.mp hu with rfl | hu2
      · exact le_trans (le_max_right x u) (by simpa using h1)
      · simpa using h2 u hu2

/-- Appending a task with the freshly computed id bumps the running
maximum to that id. -/
theorem pyMaxD_append_succ (ids : List Int) :
    pyMaxD (ids ++ [pyMaxD ids 0 + 1]) 0 = pyMaxD ids 0 + 1 := by
  cases ids with
  | nil => rfl
  | cons x xs =>
      simp only [pyMaxD, List.cons_append, List.foldl_append, List.foldl_cons,
        List.foldl_nil]
      exact max_eq_right (le_of_lt (lt_add_one _))

/-- The maximum underlying `next_task_id` on an appended collection. -/
theorem next_task_id_append (tasks : List Task) (d s : String) :
    next_task_id (tasks ++ [Task.make (next_task_id tasks) d s]) =
      next_task_id tasks + 1 := by
  simp only [next_task_id, List.map_append, List.map_cons, List.map_nil]
  exact congrArg (· + 1) (pyMaxD_append_succ (tasks.map Task.task_id))

/-- Running a sequence of `add` operations from a collection yields the
consecutive ids starting at that collection's next id. -/
theorem addMany_ids : ∀ (specs : List (String × String)) (fs : FileState)
    (tasks : List Task), load_tasks fs = .ok tasks →
    ∃ fsN, addMany specs fs = .ok (idSeq (next_task_id tasks) specs.length, fsN) := by
  intro specs
  induction specs with
  | nil => intro fs tasks _; exact ⟨fs, rfl⟩
  | cons spec rest ih =>
      intro fs tasks hload
      obtain ⟨d, s⟩ := spec
      have hadd : add_task d s fs =
          .ok (Task.make (next_task_id tasks) d s,
            save_tasks (tasks ++ [Task.make (next_task_id tasks) d s])) := by
        simp [add_task, hload]
      obtain ⟨fsN, hN⟩ := ih (save_tasks (tasks ++ [Task.make (next_task_id tasks) d s]))
        (tasks ++ [Task.make (next_task_id tasks) d s]) (load_save _)
      rw [next_task_id_append tasks d s] at hN
      refine ⟨fsN, ?_⟩
      simp only [Task.make] at hN
      simp [addMany, hadd, hN, idSeq, Task.make]

/-- A month accepted by the `%m` field lies between 1 and 12. -/
theorem monthMatch_bounds (cs : List Char) (m : Nat) (h : monthMatch cs = some m) :
    1 ≤ m ∧ m ≤ 12 := by
  match cs with
  | [] => simp [monthMatch] at h
  | [a] =>
      simp only [monthMatch] at h
      split at h
      · rename_i hr
        obtain rfl := Option.some.inj h
        simp only [digitVal]; omega
      · simp at h
  | [a, b] =>
      simp only [monthMatch] at h
      split at h
      · rename_i hr
        obtain rfl := Option.some.inj h
        obtain ⟨_, hb1, hb2⟩ := hr
        simp only [digitVal]; omega
      · split at h
        · rename_i hr
          obtain rfl := Option.some.inj h
          obtain ⟨_, hb1, hb2⟩ := hr
          simp only [digitVal]; omega
        · simp at h
  | _ :: _ :: _ :: _ => simp [monthMatch] at h

/-- A day accepted by the `%d` field is at least 1. -/
theorem dayMatch_pos (cs : List Char) (d : Nat) (h : dayMatch cs = some d) : 1 ≤ d := by
  match cs with
  | [] => simp [dayMatch] at h
  | [a] =>
      simp only [dayMatch] at h
      split at h
      · rename_i hr
        obtain rfl := Option.some.inj h
        simp only [digitVal]; omega
      · simp at h
  | [a, b] =>
      simp only [dayMatch] at h
      split at h
      · obtain rfl := Option.some.inj h; omega
      · split at h
        · rename_i hr
          obtain rfl := Option.some.inj h
          obtain ⟨ha, hb⟩ := hr
          have hb2 : 48 ≤ b.toNat ∧ b.toNat ≤ 57 := by
            simpa [isPyDigit] using hb
          have h1 : ('1' : Char).toNat = 49 := rfl
          have h2 : ('2' : Char).toNat = 50 := rfl
          rcases ha with rfl | rfl <;> simp only [digitVal, h1, h2] <;> omega
        · split at h
          · rename_i hr
            obtain rfl := Option.some.inj h
            obtain ⟨_, hb1, hb2⟩ := hr
            simp only [digitVal]; omega
          · simp at h
  | _ :: _ :: _ :: _ => simp [dayMatch] at h

/-- A year accepted by the `%Y` field is at most 9999. -/
theorem yearMatch_le (cs : List Char) (y : Nat) (h : yearMatch cs = some y) : y ≤ 9999 := by
  match cs with
  | [a, b, c, d] =>
      simp only [yearMatch] at h
      split at h
      · rename_i hr
        obtain rfl := Option.some.inj h
        obtain ⟨ha, hb, hc, hd⟩ := hr
        have ha2 : 48 ≤ a.toNat ∧ a.toNat ≤ 57 := by simpa [isPyDigit] using ha
        have hb2 : 48 ≤ b.toNat ∧ b.toNat ≤ 57 := by simpa [isPyDigit] using hb
        have hc2 : 48 ≤ c.toNat ∧ c.toNat ≤ 57 := by simpa [isPyDigit] using hc
        have hd2 : 48 ≤ d.toNat ∧ d.toNat ≤ 57 := by simpa [isPyDigit] using hd
        simp only [digitVal]; omega
      · simp at h
  | [] => simp [yearMatch] at h
  | [_] => simp [yearMatch] at h
  | [_, _] => simp [yearMatch] at h
  | [_, _, _] => simp [yearMatch] at h
  | _ :: _ :: _ :: _ :: _ :: _ => simp [yearMatch] at h

/-! Claim theorems. -/

/-- C7: saving any collection and loading it back returns an equivalent
collection preserving every field of every task (descriptions and dates
are arbitrary strings, non-ASCII Unicode included), and loading a
nonexistent backing file returns the empty collection rather than an
error. -/
theorem claim7_save_load_roundtrip :
    (∀ tasks : List Task, load_tasks (save_tasks tasks) = .ok tasks) ∧
    load_tasks .missing = .ok [] :=
  ⟨load_save, rfl⟩

/-- C3: `next_task_id` returns 1 on the empty collection and the maximum
existing id plus one otherwise (it is one more than an id occurring in the
collection and strictly greater than every id); consequently a sequence of
`add` calls starting from an empty collection returns the ids
1, 2, 3, ... consecutively. -/
theorem claim3_next_id :
    next_task_id [] = 1 ∧
    (∀ tasks : List Task, tasks ≠ [] →
      (∃ t ∈ tasks, next_task_id tasks = t.task_id + 1) ∧
      ∀ u ∈ tasks, u.task_id < next_task_id tasks) ∧
    (∀ (specs : List (String × String)) (fs : FileState), load_tasks fs = .ok [] →
      ∃ fsN, addMany specs fs = .ok (idSeq 1 specs.length, fsN)) := by
  refine ⟨rfl, ?_, ?_⟩
  · intro tasks hne
    match tasks with
    | [] => exact absurd rfl hne
    | t0 :: rest =>
        have hdef : next_task_id (t0 :: rest) =
            (rest.map Task.task_id).foldl max t0.task_id + 1 := rfl
        constructor
        · rcases foldl_max_mem (rest.map Task.task_id) t0.task_id with h | h
          · exact ⟨t0, List.mem_cons_self _ _, by rw [hdef, h]⟩
          · obtain ⟨t, htmem, htid⟩ := List.mem_map.mp h
            exact ⟨t, List.mem_cons_of_mem _ htmem, by rw [hdef, htid]⟩
        · intro u hu
          obtain ⟨h1, h2⟩ := foldl_max_le (rest.map Task.task_id) t0.task_id
          rcases List.mem_cons.mp hu with rfl | hu2
          · exact lt_of_le_of_lt h1 (by rw [hdef]; exact lt_add_one _)
          · exact lt_of_le_of_lt (h2 _ (List.mem_map_of_mem _ hu2))
              (by rw [hdef]; exact lt_add_one _)
  · intro specs fs h
    simpa using addMany_ids specs fs [] h

/-- C3 witness: on a concrete nonempty collection the next id is the
maximum plus one and bounds every id, and two adds from the missing file
return ids 1 and 2. -/
theorem claim3_witness :
    ((∃ t ∈ ([⟨2, "a", "2024-05-01", false⟩, ⟨5, "b", "2024-05-02", true⟩] : List Task),
        next_task_id [⟨2, "a", "2024-05-01", false⟩, ⟨5, "b", "2024-05-02", true⟩] =
          t.task_id + 1) ∧
      ∀ u ∈ ([⟨2, "a", "2024-05-01", false⟩, ⟨5, "b", "2024-05-02", true⟩] : List Task),
        u.task_id < next_task_id [⟨2, "a", "2024-05-01", false⟩, ⟨5, "b", "2024-05-02", true⟩]) ∧
    ∃ fsN, addMany [("Buy milk", "2024-05-01"), ("Write report", "2024-05-01")] .missing =
      .ok (idSeq 1 2, fsN) :=
  ⟨claim3_next_id.2.1 _ (by decide), claim3_next_id.2.2 _ .missing rfl⟩

/-- C4: removing or toggling an id absent from the stored collection
reports the not-found `TaskError` on stderr, exits with code 1, and leaves
the file state unchanged (the error is raised before any save). -/
theorem claim4_not_found (fs : FileState) (tasks : List Task) (tid : Int) (undone : Bool)
    (hload : load_tasks fs = .ok tasks)
    (habs : ∀ t ∈ tasks, t.task_id ≠ tid) :
    run_command (.remove tid) fs = .exited 1 [] [notFoundMsg tid] fs ∧
    run_command (.done tid undone) fs = .exited 1 [] [notFoundMsg tid] fs := by
  have hrem : remove_task tid fs = .error (.taskError (notFoundMsg tid)) := by
    simp [remove_task, hload, removeFirst_eq_none tid tasks habs]
  have hupd : update_task_state tid (!undone) fs = .error (.taskError (notFoundMsg tid)) := by
    simp [update_task_state, hload, updateFirst_eq_none tid (!undone) tasks habs]
  constructor <;> simp [run_command, hrem, hupd]

/-- C4 witness: `remove 99` and `done 99` on the empty collection exit
with code 1, print the not-found message, and leave the file missing. -/
theorem claim4_witness :
    run_command (.remove 99) .missing = .exited 1 [] [notFoundMsg 99] .missing ∧
    run_command (.done 99 false) .missing = .exited 1 [] [notFoundMsg 99] .missing :=
  claim4_not_found .missing [] 99 false rfl (by simp)

/-- C5: a successful `list` returns a permutation of the stored collection
with the date filter applied unless `show_all` is set and the completion
filter applied whenever requested (`matches_state none` holds of every
task, so the unconditional filter below is the identity when `completed`
is `none`), and the result is sorted by `(scheduled_for, task_id)`
regardless of storage order. -/
theorem claim5_list_filter_sort (date : Option String) (show_all : Bool)
    (completed : Option Bool) (fs : FileState) (tasks out : List Task)
    (hload : load_tasks fs = .ok tasks)
    (hout : list_tasks date show_all completed fs = .ok out) :
    out.Perm ((if show_all then tasks else tasks.filter fun t => t.matches_date date).filter
        fun t => t.matches_state completed) ∧
    out.Pairwise fun a b => taskLE a b = true := by
  simp only [list_tasks, hload] at hout
  cases completed with
  | none =>
      have hout2 : out =
          sortTasks (if show_all then tasks else tasks.filter fun t => t.matches_date date) :=
        (Except.ok.inj hout).symm
      rw [hout2]
      refine ⟨?_, sortTasks_pairwise _⟩
      have hfil : ((if show_all then tasks else tasks.filter fun t => t.matches_date date).filter
          fun t => t.matches_state none) =
          (if show_all then tasks else tasks.filter fun t => t.matches_date date) := by
        simp [Task.matches_state]
      rw [hfil]
      exact sortTasks_perm _
  | some c =>
      have hout2 : out = sortTasks
          ((if show_all then tasks else tasks.filter fun t => t.matches_date date).filter
            fun t => t.matches_state (some c)) :=
        (Except.ok.inj hout).symm
      rw [hout2]
      exact ⟨sortTasks_perm _, sortTasks_pairwise _⟩

/-- C5 witness: a concrete out-of-order stored collection is returned as a
sorted permutation by a bare filterless `list --all`. -/
theorem claim5_witness :
    ([⟨1, "a", "2024-05-01", true⟩, ⟨2, "b", "2024-05-02", false⟩] : List Task).Perm
      ((if true then [⟨2, "b", "2024-05-02", false⟩, ⟨1, "a", "2024-05-01", true⟩]
        else ([⟨2, "b", "2024-05-02", false⟩, ⟨1, "a", "2024-05-01", true⟩] : List Task).filter
          fun t => t.matches_date none).filter fun t => t.matches_state none) ∧
    ([⟨1, "a", "2024-05-01", true⟩, ⟨2, "b", "2024-05-02", false⟩] : List Task).Pairwise
      fun a b => taskLE a b = true :=
  claim5_list_filter_sort none true none
    (save_tasks [⟨2, "b", "2024-05-02", false⟩, ⟨1, "a", "2024-05-01", true⟩])
    [⟨2, "b", "2024-05-02", false⟩, ⟨1, "a", "2024-05-01", true⟩]
    [⟨1, "a", "2024-05-01", true⟩, ⟨2, "b", "2024-05-02", false⟩] rfl rfl

/-- C6: on a collection containing the id, marking done and then undone
restores the (first) matching task's `completed` to false and leaves its
id, description, and scheduled date as they were before the first call. -/
theorem claim6_round_trip (fs : FileState) (tasks : List Task) (tid : Int)
    (hload : load_tasks fs = .ok tasks)
    (hmem : ∃ t ∈ tasks, t.task_id = tid) :
    ∃ orig ∈ tasks, orig.task_id = tid ∧
      ∃ t1 fs1 t2 fs2,
        update_task_state tid true fs = .ok (t1, fs1) ∧
        update_task_state tid false fs1 = .ok (t2, fs2) ∧
        t2.completed = false ∧ t2.task_id = orig.task_id ∧
        t2.description = orig.description ∧ t2.scheduled_for = orig.scheduled_for := by
  obtain ⟨l1, orig, l2, rfl, htid, hl1⟩ := exists_first_split tid tasks hmem
  refine ⟨orig, by simp, htid, ?_⟩
  have h1 : update_task_state tid true fs =
      .ok ({ orig with completed := true },
        save_tasks (l1 ++ { orig with completed := true } :: l2)) := by
    simp [update_task_state, hload, updateFirst_append tid true orig htid l1 l2 hl1]
  have h2 : update_task_state tid false
      (save_tasks (l1 ++ { orig with completed := true } :: l2)) =
      .ok ({ orig with completed := false },
        save_tasks (l1 ++ { orig with completed := false } :: l2)) := by
    have hstep := updateFirst_append tid false { orig with completed := true }
      htid l1 l2 hl1
    simp [update_task_state, load_save, hstep]
  exact ⟨_, _, _, _, h1, h2, rfl, rfl, rfl, rfl⟩

/-- C6 witness: done then undone on a one-task collection restores the
task's fields. -/
theorem claim6_witness :
    ∃ orig ∈ ([⟨1, "a", "2024-05-01", false⟩] : List Task), orig.task_id = 1 ∧
      ∃ t1 fs1 t2 fs2,
        update_task_state 1 true (save_tasks [⟨1, "a", "2024-05-01", false⟩]) = .ok (t1, fs1) ∧
        update_task_state 1 false fs1 = .ok (t2, fs2) ∧
        t2.completed = false ∧ t2.task_id = orig.task_id ∧
        t2.description = orig.description ∧ t2.scheduled_for = orig.scheduled_for :=
  claim6_round_trip (save_tasks [⟨1, "a", "2024-05-01", false⟩])
    [⟨1, "a", "2024-05-01", false⟩] 1 rfl ⟨⟨1, "a", "2024-05-01", false⟩, by simp, rfl⟩

/-- C9: `update_task_state` rewrites exactly the `completed` field of the
first task matching the id: every task before it and after it, the
targeted task's other fields, and the order of the saved collection are
unchanged. -/
theorem claim9_frame (fs : FileState) (l1 l2 : List Task) (orig : Task) (tid : Int) (b : Bool)
    (hload : load_tasks fs = .ok (l1 ++ orig :: l2))
    (hl1 : ∀ u ∈ l1, u.task_id ≠ tid) (hid : orig.task_id = tid) :
    update_task_state tid b fs =
      .ok ({ orig with completed := b },
        save_tasks (l1 ++ { orig with completed := b } :: l2)) := by
  simp [update_task_state, hload, updateFirst_append tid b orig hid l1 l2 hl1]

/-- C9 witness: toggling the middle task of a three-task collection
rewrites only that task and keeps the neighbours and the order. -/
theorem claim9_witness :
    update_task_state 7 true
      (save_tasks [⟨1, "a", "2024-05-01", false⟩, ⟨7, "b", "2024-05-02", false⟩,
        ⟨3, "c", "2024-05-03", true⟩]) =
      .ok ({ (⟨7, "b", "2024-05-02", false⟩ : Task) with completed := true },
        save_tasks ([⟨1, "a", "2024-05-01", false⟩] ++
          { (⟨7, "b", "2024-05-02", false⟩ : Task) with completed := true } ::
            [⟨3, "c", "2024-05-03", true⟩])) :=
  claim9_frame
    (save_tasks [⟨1, "a", "2024-05-01", false⟩, ⟨7, "b", "2024-05-02", false⟩,
      ⟨3, "c", "2024-05-03", true⟩])
    [⟨1, "a", "2024-05-01", false⟩] [⟨3, "c", "2024-05-03", true⟩]
    ⟨7, "b", "2024-05-02", false⟩ 7 true rfl (by decide) rfl

/-- C8 (amended): when at most one stored task carries the id — the
spec's uniqueness invariant — a successful `remove` followed by
`list --all` with no completion filter shows no task with that id. -/
theorem claim8_remove_then_list (fs fs2 : FileState) (tasks : List Task) (tid : Int)
    (t : Task) (date : Option String) (out : List Task)
    (hload : load_tasks fs = .ok tasks)
    (huniq : (tasks.filter fun u => u.task_id == tid).length ≤ 1)
    (hrem : remove_task tid fs = .ok (t, fs2))
    (hlist : list_tasks date true none fs2 = .ok out) :
    ∀ u ∈ out, u.task_id ≠ tid := by
  simp only [remove_task, hload] at hrem
  cases hrf : removeFirst tid tasks with
  | none => rw [hrf] at hrem; simp at hrem
  | some p =>
      obtain ⟨r, rest⟩ := p
      rw [hrf] at hrem
      simp only [Except.ok.injEq, Prod.mk.injEq] at hrem
      obtain ⟨rfl, rfl⟩ := hrem
      obtain ⟨la, lb, hsplit, hrest, htid, hla⟩ := removeFirst_some tid tasks r rest hrf
      subst hrest
      have htb : (r.task_id == tid) = true := beq_iff_eq.mpr htid
      have hfla : la.filter (fun u => u.task_id == tid) = [] := by
        refine List.filter_eq_nil_iff.mpr fun u hu => ?_
        simpa using beq_eq_false_iff_ne.mpr (hla u hu)
      have hlb : ∀ u ∈ lb, u.task_id ≠ tid := by
        have hcons : List.filter (fun u => u.task_id == tid) (r :: lb) =
            r :: List.filter (fun u => u.task_id == tid) lb :=
          List.filter_cons_of_pos htb
        rw [hsplit, List.filter_append, hcons, hfla] at huniq
        simp only [List.nil_append, List.length_cons] at huniq
        have hflb : lb.filter (fun u => u.task_id == tid) = [] :=
          List.length_eq_zero.mp (by omega)
        intro u hu hc
        have hmm : u ∈ lb.filter (fun u => u.task_id == tid) :=
          List.mem_filter.mpr ⟨hu, beq_iff_eq.mpr hc⟩
        rw [hflb] at hmm
        simp at hmm
      simp only [list_tasks, load_save] at hlist
      have hout : out = sortTasks (la ++ lb) := by
        simpa using (Except.ok.inj hlist).symm
      intro u hu
      rw [hout] at hu
      have humem : u ∈ la ++ lb := (sortTasks_perm (la ++ lb)).mem_iff.mp hu
      rcases List.mem_append.mp humem with h | h
      · exact hla u h
      · exact hlb u h

/-- C8 counterexample: with two stored tasks sharing id 1 (possible in a
hand-edited file; the claim quantifies over every stored collection),
`remove 1` deletes only the first, and a subsequent `list --all` still
shows a task with id 1. -/
theorem claim8_counterexample :
    remove_task 1 (save_tasks [⟨1, "a", "2024-05-01", false⟩, ⟨1, "b", "2024-05-01", false⟩]) =
      .ok (⟨1, "a", "2024-05-01", false⟩, save_tasks [⟨1, "b", "2024-05-01", false⟩]) ∧
    list_tasks (some "2024-05-01") true none (save_tasks [⟨1, "b", "2024-05-01", false⟩]) =
      .ok [⟨1, "b", "2024-05-01", false⟩] ∧
    (⟨1, "b", "2024-05-01", false⟩ : Task).task_id = 1 :=
  ⟨rfl, rfl, rfl⟩

/-- C8 witness: with unique ids, removing id 1 and listing all leaves only
the task with id 2, whose id is not 1. -/
theorem claim8_witness : (⟨2, "b", "2024-05-02", false⟩ : Task).task_id ≠ 1 :=
  claim8_remove_then_list
    (save_tasks [⟨1, "a", "2024-05-01", false⟩, ⟨2, "b", "2024-05-02", false⟩])
    (save_tasks [⟨2, "b", "2024-05-02", false⟩])
    [⟨1, "a", "2024-05-01", false⟩, ⟨2, "b", "2024-05-02", false⟩] 1
    ⟨1, "a", "2024-05-01", false⟩ none [⟨2, "b", "2024-05-02", false⟩]
    rfl (by decide) rfl rfl ⟨2, "b", "2024-05-02", false⟩ (by simp)

/-- Any load failure other than a `TaskError` escapes the dispatch of
`main` uncaught, because its `except` clause catches only `TaskError`. -/
theorem run_command_load_error (cmd : Command) (fs : FileState) (e : PyError)
    (hload : load_tasks fs = .error e) (hne : ∀ m, e ≠ PyError.taskError m) :
    run_command cmd fs = .uncaught e fs := by
  cases cmd with
  | add d dt =>
      have hop : add_task d dt fs = .error e := by simp [add_task, hload]
      cases e with
      | taskError m => exact absurd rfl (hne m)
      | keyError k => simp [run_command, hop]
      | valueError => simp [run_command, hop]
      | typeError => simp [run_command, hop]
      | argumentTypeError m => simp [run_command, hop]
  | list dt al cp pd =>
      have hop : ∀ c, list_tasks (some dt) al c fs = .error e := by
        intro c; simp [list_tasks, hload]
      cases e with
      | taskError m => exact absurd rfl (hne m)
      | keyError k => simp [run_command, hop]
      | valueError => simp [run_command, hop]
      | typeError => simp [run_command, hop]
      | argumentTypeError m => simp [run_command, hop]
  | done tid undone =>
      have hop : update_task_state tid (!undone) fs = .error e := by
        simp [update_task_state, hload]
      cases e with
      | taskError m => exact absurd rfl (hne m)
      | keyError k => simp [run_command, hop]
      | valueError => simp [run_command, hop]
      | typeError => simp [run_command, hop]
      | argumentTypeError m => simp [run_command, hop]
  | remove tid =>
      have hop : remove_task tid fs = .error e := by simp [remove_task, hload]
      cases e with
      | taskError m => exact absurd rfl (hne m)
      | keyError k => simp [run_command, hop]
      | valueError => simp [run_command, hop]
      | typeError => simp [run_command, hop]
      | argumentTypeError m => simp [run_command, hop]

/-- C1 (amended): a stored record missing a required field makes
deserialization fail with a `KeyError` (and a `task_id` not coercible to
int with a `ValueError` or `TypeError`) — not with any `TaskError` — and
the dispatch of `main` catches only `TaskError`, so such failures escape
as uncaught exceptions instead of a message on stderr with exit code 1. -/
theorem claim1_malformed_uncaught :
    (∀ pairs : List (String × JValue), lookupKey pairs "task_id" = none →
      Task.from_dict (.jobj pairs) = .error (.keyError "task_id")) ∧
    (∀ (cmd : Command) (fs : FileState) (e : PyError), load_tasks fs = .error e →
      (∀ m, e ≠ PyError.taskError m) → run_command cmd fs = .uncaught e fs) := by
  constructor
  · intro pairs h
    simp [Task.from_dict, JValue.subscript, h]
  · intro cmd fs e hload hne
    exact run_command_load_error cmd fs e hload hne

/-- C1 counterexample: a stored record without `task_id` fails with
`KeyError`, one whose `task_id` is the string "abc" fails with
`ValueError`, and running `list` over a file holding the former record
ends in an uncaught `KeyError`, not in an exit with code 1. -/
theorem claim1_counterexample :
    Task.from_dict (.jobj [("description", .jstr "Đọc sách"),
        ("scheduled_for", .jstr "2024-05-01")]) = .error (.keyError "task_id") ∧
    Task.from_dict (.jobj [("task_id", .jstr "abc"), ("description", .jstr "x"),
        ("scheduled_for", .jstr "2024-05-01")]) = .error .valueError ∧
    run_command (.list "2024-05-01" false false false)
        (.jsonData (.jarr [.jobj [("description", .jstr "Đọc sách"),
          ("scheduled_for", .jstr "2024-05-01")]])) =
      .uncaught (.keyError "task_id")
        (.jsonData (.jarr [.jobj [("description", .jstr "Đọc sách"),
          ("scheduled_for", .jstr "2024-05-01")]])) :=
  ⟨rfl, rfl, rfl⟩

/-- C1 witness: the amended theorem applied to a record without `task_id`
and to a `remove` run over a file holding an empty record. -/
theorem claim1_witness :
    Task.from_dict (.jobj [("description", .jstr "x")]) = .error (.keyError "task_id") ∧
    run_command (.remove 1) (.jsonData (.jarr [.jobj []])) =
      .uncaught (.keyError "task_id") (.jsonData (.jarr [.jobj []])) :=
  ⟨claim1_malformed_uncaught.1 [("description", .jstr "x")] rfl,
    claim1_malformed_uncaught.2 (.remove 1) (.jsonData (.jarr [.jobj []]))
      (.keyError "task_id") rfl (fun _ h => PyError.noConfusion h)⟩

/-- A date accepted by the `strptime` model is calendar-valid: the year is
between 1 and 9999 and the day fits the month. -/
theorem strptimeYmd_bounds (s : String) (y m d : Nat)
    (h : strptimeYmd s = some (y, m, d)) :
    1 ≤ y ∧ y ≤ 9999 ∧ 1 ≤ m ∧ m ≤ 12 ∧ 1 ≤ d ∧ d ≤ daysInMonth y m := by
  unfold strptimeYmd at h
  cases hsp : splitDash s.data [] with
  | nil => rw [hsp] at h; simp at h
  | cons ys t1 =>
      cases t1 with
      | nil => rw [hsp] at h; simp at h
      | cons ms t2 =>
          cases t2 with
          | nil => rw [hsp] at h; simp at h
          | cons ds t3 =>
              cases t3 with
              | cons w t4 => rw [hsp] at h; simp at h
              | nil =>
                  rw [hsp] at h
                  dsimp only at h
                  cases hy : yearMatch ys with
                  | none => rw [hy] at h; simp at h
                  | some y0 =>
                      cases hm : monthMatch ms with
                      | none => rw [hy, hm] at h; simp at h
                      | some m0 =>
                          cases hd : dayMatch ds with
                          | none => rw [hy, hm, hd] at h; simp at h
                          | some d0 =>
                              rw [hy, hm, hd] at h
                              dsimp only at h
                              by_cases hc : 1 ≤ y0 ∧ d0 ≤ daysInMonth y0 m0
                              · rw [if_pos hc] at h
                                simp only [Option.some.injEq, Prod.mk.injEq] at h
                                obtain ⟨rfl, rfl, rfl⟩ := h
                                have hyb := yearMatch_le ys y0 hy
                                have hmb := monthMatch_bounds ms m0 hm
                                have hdb := dayMatch_pos ds d0 hd
                                exact ⟨hc.1, hyb, hmb.1, hmb.2, hdb, hc.2⟩
                              · rw [if_neg hc] at h; simp at h

/-- C2 (amended): the date-argument parse succeeds exactly when the input
lowercases to "today" (resolving to the current date string) or is
accepted by `strptime` with format `%Y-%m-%d` — an exactly-four-digit
year, a one- or two-digit month and day, and a calendar-valid date —
in which case the input is returned verbatim, not normalized; every other
input fails with the `ArgumentTypeError` (the spec's `InvalidDateError`)
raised inside argument parsing, before any operation runs. -/
theorem claim2_parse_date (today value : String) :
    ((∃ r, parse_date today value = .ok r) ↔
      (pyLower value = "today" ∨ (strptimeYmd value).isSome = true)) ∧
    (pyLower value = "today" → parse_date today value = .ok today) ∧
    (pyLower value ≠ "today" → (strptimeYmd value).isSome = true →
      parse_date today value = .ok value) ∧
    (pyLower value ≠ "today" → strptimeYmd value = none →
      parse_date today value = .error (.argumentTypeError
        ("Ngày không hợp lệ: \x27" ++ value ++ "\x27. Định dạng đúng là YYYY-MM-DD."))) ∧
    (∀ y m d, strptimeYmd value = some (y, m, d) →
      1 ≤ y ∧ y ≤ 9999 ∧ 1 ≤ m ∧ m ≤ 12 ∧ 1 ≤ d ∧ d ≤ daysInMonth y m) := by
  refine ⟨?_, ?_, ?_, ?_, fun y m d h => strptimeYmd_bounds value y m d h⟩
  · by_cases h : pyLower value = "today"
    · simp [parse_date, h]
    · cases hs : strptimeYmd value with
      | none => simp [parse_date, h, hs]
      | some p => simp [parse_date, h, hs]
  · intro h
    simp [parse_date, h]
  · intro h hs
    cases hsome : strptimeYmd value with
    | none => rw [hsome] at hs; simp at hs
    | some p => simp [parse_date, h, hsome]
  · intro h hn
    simp [parse_date, h, hn]

/-- C2 counterexample: `strptime` leniency makes the parse accept the
non-zero-padded string "2024-5-1" (returned verbatim) and, through
`str.lower`, the non-literal token "TODAY", while neither is the literal
"today" nor a fixed-width zero-padded `YYYY-MM-DD` string. -/
theorem claim2_counterexample :
    parse_date "2024-10-12" "2024-5-1" = .ok "2024-5-1" ∧
    specZeroPaddedYmd "2024-5-1" = false ∧
    "2024-5-1" ≠ "today" ∧
    parse_date "2024-10-12" "TODAY" = .ok "2024-10-12" ∧
    "TODAY" ≠ "today" :=
  ⟨rfl, rfl, by decide, rfl, by decide⟩

/-- C2 witness: the amended theorem applied to the explicit date
"2024-05-01", which is accepted, returned verbatim, and within bounds. -/
theorem claim2_witness :
    parse_date "2024-10-12" "2024-05-01" = .ok "2024-05-01" ∧
    (1 ≤ 2024 ∧ 2024 ≤ 9999 ∧ 1 ≤ 5 ∧ 5 ≤ 12 ∧ 1 ≤ 1 ∧ 1 ≤ daysInMonth 2024 5) :=
  ⟨(claim2_parse_date "2024-10-12" "2024-05-01").2.2.1 (by decide) rfl,
    (claim2_parse_date "2024-10-12" "2024-05-01").2.2.2.2 2024 5 1 rfl⟩

/-- C10: invoked without `--date` and without `--all`, the `list` command
parses to the current date with the date filter active, so a successful
bare `list` shows exactly the tasks scheduled for today (sorted), not the
whole collection; and `add` without `--date` schedules the task for
today. -/
theorem claim10_defaults (today desc : String) (fs : FileState) (tasks out : List Task)
    (hdesc : startsDash desc = false)
    (hload : load_tasks fs = .ok tasks)
    (hout : list_tasks (some today) false none fs = .ok out) :
    parseArgv today ["list"] = .parsed (.list today false false false) ∧
    parseArgv today ["add", desc] = .parsed (.add desc today) ∧
    out.Perm (tasks.filter fun t => t.scheduled_for == today) ∧
    ∀ u ∈ out, u.scheduled_for = today := by
  have hne : desc ≠ "--date" := by
    intro hEq
    rw [hEq] at hdesc
    simp [startsDash] at hdesc
  simp only [list_tasks, hload] at hout
  have hout2 : out = sortTasks (tasks.filter fun t => t.matches_date (some today)) := by
    simpa using (Except.ok.inj hout).symm
  refine ⟨rfl, ?_, ?_, ?_⟩
  · simp [parseArgv, parseAddArgs, hne, hdesc]
  · rw [hout2]
    exact sortTasks_perm _
  · intro u hu
    rw [hout2] at hu
    have humem := (sortTasks_perm _).mem_iff.mp hu
    have := List.of_mem_filter humem
    simpa [Task.matches_date] using this

/-- C10 witness: a bare `list` over a two-task file shows only the task
scheduled for the current date, and a bare `add` is scheduled for it. -/
theorem claim10_witness :
    parseArgv "2024-10-12" ["list"] = .parsed (.list "2024-10-12" false false false) ∧
    parseArgv "2024-10-12" ["add", "Buy milk"] = .parsed (.add "Buy milk" "2024-10-12") ∧
    ([⟨1, "x", "2024-10-12", false⟩] : List Task).Perm
      (([⟨1, "x", "2024-10-12", false⟩, ⟨2, "y", "2024-05-01", false⟩] : List Task).filter
        fun t => t.scheduled_for == "2024-10-12") ∧
    ∀ u ∈ ([⟨1, "x", "2024-10-12", false⟩] : List Task), u.scheduled_for = "2024-10-12" :=
  claim10_defaults "2024-10-12" "Buy milk"
    (save_tasks [⟨1, "x", "2024-10-12", false⟩, ⟨2, "y", "2024-05-01", false⟩])
    [⟨1, "x", "2024-10-12", false⟩, ⟨2, "y", "2024-05-01", false⟩]
    [⟨1, "x", "2024-10-12", false⟩] rfl rfl rfl

end DailyTracker


